import Mathlib

/-!
Shallow embedding of `stac_pydantic/item.py` (Ouranosinc/stac-pydantic):
the STAC item data model, the dynamic extension-schema composition
(`_extension_model_factory`, memoized with `functools.lru_cache`), the item
schema factory (`item_factory`), and the pydantic-v1 validation and
serialization semantics (`dict(by_alias=True, exclude_unset=True)`) that the
record types `Item` / `ItemCollection` rely on.

Conventions of the embedding:
* JSON documents are modelled by the inductive `Json`; numbers are `Int`
  (no claim depends on non-integral numerics).
* A pydantic model is represented as data: an ordered association list of
  field name to `FieldSpec`, matching how pydantic itself drives validation
  from `__fields__`.
* Python `dict` update semantics (insertion order kept, last write wins on
  values) are modelled by `dictInsert` / `dictUpdate`.
* `functools.lru_cache` (bare decorator, hence the documented default
  `maxsize=128`) is modelled by `LruCache`: most-recently-used first, hits
  move an entry to the front, a miss inserts at the front and drops the
  least-recently-used entry beyond capacity 128, and a call that raises
  caches nothing.
-/

/-- JSON values of the wire format (§6). Numbers are integers, which covers
every document any claim mentions. -/
inductive Json where
  | null : Json
  | bool (b : Bool) : Json
  | num (n : Int) : Json
  | str (s : String) : Json
  | arr (elements : List Json) : Json
  | obj (entries : List (String × Json)) : Json

/-- Type signatures of fields, first-order so that `FieldSpec` stays
decidable. `strOrDatetime` is `Union[str, datetime]` (wire values are
strings); `assetMap` is `Dict[str, Asset]` and `linkObj` the external
`Link` / `PaginationLink` shapes (external collaborators of §6, validated
here only as JSON objects); `bbox` is the 4-or-6-number tuple; `geometry`
the external geometry object. -/
inductive TypeSig where
  | str : TypeSig
  | int : TypeSig
  | strOrDatetime : TypeSig
  | optional (t : TypeSig) : TypeSig
  | listOf (t : TypeSig) : TypeSig
  | assetMap : TypeSig
  | linkObj : TypeSig
  | bbox : TypeSig
  | geometry : TypeSig
  | contextObj : TypeSig
deriving DecidableEq, Repr

/-- Structural type check of a JSON value against a `TypeSig`, following the
pydantic-v1 validators the source model fields stand for. -/
def typeCheck : TypeSig → Json → Bool
  | .str, .str _ => true
  | .str, _ => false
  | .int, .num _ => true
  | .int, _ => false
  | .strOrDatetime, .str _ => true
  | .strOrDatetime, _ => false
  | .optional _, .null => true
  | .optional t, v => typeCheck t v
  | .listOf t, .arr xs => xs.all (typeCheck t)
  | .listOf _, _ => false
  | .assetMap, .obj kvs => kvs.all (fun p => match p.2 with | .obj _ => true | _ => false)
  | .assetMap, _ => false
  | .linkObj, .obj _ => true
  | .linkObj, _ => false
  | .bbox, .arr xs =>
      (xs.length == 4 || xs.length == 6) &&
        xs.all (fun v => match v with | .num _ => true | _ => false)
  | .bbox, _ => false
  | .geometry, .obj _ => true
  | .geometry, _ => false
  | .contextObj, .obj _ => true
  | .contextObj, _ => false

/-- One field definition (§3 FieldSpec): wire alias, type signature, default
value, required flag. In `item.py` every alias coincides with the field
name, e.g. `Field(None, alias="title")`. -/
structure FieldSpec where
  wireAlias : String
  type : TypeSig
  default : Json
  required : Bool

/-- Ordered field mapping of a properties model: name to `FieldSpec`, plus
the `Config.extra = "allow"` flag of `ItemProperties` (item.py lines 33-34),
inherited by every composed model. -/
structure ComposedSchema where
  fields : List (String × FieldSpec)
  extraAllowed : Bool

/-- Lookup in an ordered association list: first entry with the given key,
as Python `dict` access. -/
def getKey {α : Type} (kvs : List (String × α)) (k : String) : Option α :=
  (kvs.find? (fun p => p.1 == k)).map (fun p => p.2)

/-- Python `dict` single-key write `d[k] = v`: an existing key keeps its
position and gets the new value, a new key is appended. -/
def dictInsert {α : Type} (m : List (String × α)) (k : String) (v : α) :
    List (String × α) :=
  if m.any (fun p => p.1 == k) then
    m.map (fun p => if p.1 == k then (k, v) else p)
  else
    m ++ [(k, v)]

/-- Python `dict.update`: fold the right mapping into the left one,
last write wins on shared keys. -/
def dictUpdate {α : Type} (m adds : List (String × α)) : List (String × α) :=
  adds.foldl (fun acc p => dictInsert acc p.1 p.2) m

/-- The declared fields of `ItemProperties` (item.py lines 22-31):
`datetime` required, the eight common-metadata fields optional, every alias
equal to the field name. -/
def itemPropertiesFields : List (String × FieldSpec) :=
  [("datetime", ⟨"datetime", .strOrDatetime, .null, true⟩),
   ("title", ⟨"title", .optional .str, .null, false⟩),
   ("description", ⟨"description", .optional .str, .null, false⟩),
   ("start_datetime", ⟨"start_datetime", .optional .strOrDatetime, .null, false⟩),
   ("end_datetime", ⟨"end_datetime", .optional .strOrDatetime, .null, false⟩),
   ("platform", ⟨"platform", .optional .str, .null, false⟩),
   ("instruments", ⟨"instruments", .optional (.listOf .str), .null, false⟩),
   ("constellation", ⟨"constellation", .optional .str, .null, false⟩),
   ("mission", ⟨"mission", .optional .str, .null, false⟩)]

/-- The base `ItemProperties` schema: its declared fields with
`Config.extra = "allow"`. -/
def itemPropertiesSchema : ComposedSchema :=
  ⟨itemPropertiesFields, true⟩

/-- Modelled from the spec: the external Field Registry (§4.1, the
`Extensions` module is not under src/). `lookup(identifier)` yields the
extension's field-set definition, or fails with `UnknownExtensionError`
(`none`) when the identifier is not registered. -/
def Registry : Type :=
  String → Option (List (String × FieldSpec))

/-- The error raised by the registry for an unregistered identifier
(§4.1, §7). -/
structure UnknownExtensionError where
  ident : String
deriving DecidableEq, Repr

/-- Modelled from the spec: the Schema Decomposer (§4.2, `decompose_model`
lives in `stac_pydantic/utils.py`, not under src/). It extracts the ordered
name-to-FieldSpec mapping of a model without mutating it; since an
`ExtensionDefinition` is represented here directly as that mapping,
decomposition returns an independent copy, i.e. the mapping itself. -/
def decompose_model (definition : List (String × FieldSpec)) :
    List (String × FieldSpec) :=
  definition

/-- The accumulation loop of `_extension_model_factory` (item.py lines
81-85): `fields = {}`; for each identifier in order, skip `"checksum"`,
otherwise resolve it in the registry — propagating
`UnknownExtensionError` — and `fields.update(decompose_model(...))`. -/
def extFields (registry : Registry) :
    List String → List (String × FieldSpec) →
      Except UnknownExtensionError (List (String × FieldSpec))
  | [], acc => .ok acc
  | ext :: rest, acc =>
      if ext = "checksum" then
        extFields registry rest acc
      else
        match registry ext with
        | none => .error ⟨ext⟩
        | some definition =>
            extFields registry rest (dictUpdate acc (decompose_model definition))

/-- The uncached body of `_extension_model_factory` (item.py lines 76-89):
collect the extension fields, then
`create_model("CustomItemProperties", __base__=ItemProperties, **fields)` —
the composed model's fields are the base `ItemProperties` fields overridden
by the collected extension fields, and `Config.extra = "allow"` is
inherited from the base. -/
def extension_model_factory_raw (registry : Registry) (key : List String) :
    Except UnknownExtensionError ComposedSchema :=
  (extFields registry key []).map
    (fun fs => ⟨dictUpdate itemPropertiesFields fs, true⟩)

/-- State of `functools.lru_cache`. The source decorates
`_extension_model_factory` with the bare `@lru_cache`, which since
Python 3.8 means `lru_cache(maxsize=128)`: a bounded LRU cache, not an
unbounded one. Entries are kept most-recently-used first; the key is the
literal argument tuple, i.e. the ordered extension-identifier sequence. -/
structure LruCache where
  entries : List (List String × ComposedSchema)

/-- The `maxsize` of the bare `@lru_cache` decorator (Python default). -/
def lruMaxsize : Nat := 128

/-- The empty cache (process start). -/
def emptyCache : LruCache := ⟨[]⟩

/-- Cache lookup by exact key. -/
def lookupCache (c : LruCache) (k : List String) : Option ComposedSchema :=
  (c.entries.find? (fun p => p.1 == k)).map (fun p => p.2)

/-- Move the entry with key `k` to the most-recently-used position. -/
def touchCache (c : LruCache) (k : List String) (v : ComposedSchema) : LruCache :=
  ⟨(k, v) :: c.entries.filter (fun p => p.1 != k)⟩

/-- Insert a fresh entry at the most-recently-used position, evicting the
least-recently-used entries beyond `maxsize`. -/
def lruInsert (c : LruCache) (k : List String) (v : ComposedSchema) : LruCache :=
  ⟨((k, v) :: c.entries).take lruMaxsize⟩

/-- `_extension_model_factory` as called at runtime: the `lru_cache`-wrapped
composition. A hit returns the cached schema (refreshing recency); a miss
runs `extension_model_factory_raw` and caches the result only on success —
`functools.lru_cache` stores nothing when the wrapped call raises, so a
failed composition leaves the cache unchanged. Returns the result together
with the new cache state. -/
def extension_model_factory (registry : Registry) (c : LruCache)
    (key : List String) :
    Except UnknownExtensionError ComposedSchema × LruCache :=
  match lookupCache c key with
  | some v => (.ok v, touchCache c key v)
  | none =>
      match extension_model_factory_raw registry key with
      | .ok v => (.ok v, lruInsert c key v)
      | .error e => (.error e, c)

/-- A slot of the decomposed `Item` model handed to `create_model` by
`item_factory`: either a plain field definition, a constant string field
(`Field(value, const=True)`, optional with the constant as default), or a
properties submodel with its own composed schema and a required flag
(`FieldInfo(...)` marks the replacement required). -/
inductive ItemField where
  | plain (fs : FieldSpec) : ItemField
  | constStr (value : String) : ItemField
  | submodel (cs : ComposedSchema) (required : Bool) : ItemField

/-- Modelled from the spec: the fixed specification version string
`STAC_VERSION` (the `version` module is not under src/); §8's example uses
"1.0.0". -/
def STAC_VERSION : String := "1.0.0"

/-- The decomposition of the `Item` model (item.py lines 37-49, plus the
fields inherited from the external `geojson_pydantic` `Feature` base —
modelled from the spec, §6: `type` fixed to "Feature" and `geometry`
delegated to the geometry collaborator; the §8 minimal example supplies
neither, so both are optional here). Every wire alias equals the field
name. -/
def itemModelFields : List (String × ItemField) :=
  [("type", .constStr "Feature"),
   ("geometry", .plain ⟨"geometry", .optional .geometry, .null, false⟩),
   ("id", .plain ⟨"id", .str, .null, true⟩),
   ("stac_version", .constStr STAC_VERSION),
   ("properties", .submodel itemPropertiesSchema true),
   ("assets", .plain ⟨"assets", .assetMap, .null, true⟩),
   ("links", .plain ⟨"links", .listOf .linkObj, .null, true⟩),
   ("bbox", .plain ⟨"bbox", .bbox, .null, true⟩),
   ("stac_extensions", .plain ⟨"stac_extensions", .optional (.listOf .str), .null, false⟩),
   ("collection", .plain ⟨"collection", .optional .str, .null, false⟩)]

/-- Extract the list when every element of a JSON array is a string
(the extension identifiers of `stac_extensions`). -/
def strList : List Json → Option (List String)
  | [] => some []
  | .str s :: rest => (strList rest).map (fun l => s :: l)
  | _ => none

/-- `item_factory` (item.py lines 92-99): decompose the `Item` model; if the
raw item declares a truthy (non-empty) `stac_extensions` list, replace the
`properties` slot with the memoized composed model for exactly that
identifier sequence, marked required by `FieldInfo(...)`; assemble the
resulting model fresh on every call. The cache is threaded explicitly and
touched only through `extension_model_factory`. -/
def item_factory (registry : Registry) (c : LruCache)
    (item : List (String × Json)) :
    Except UnknownExtensionError (List (String × ItemField)) × LruCache :=
  let item_fields := itemModelFields
  match getKey item "stac_extensions" with
  | some (.arr xs) =>
      match strList xs with
      | some exts =>
          if exts.isEmpty then
            (.ok item_fields, c)
          else
            match extension_model_factory registry c exts with
            | (.ok cs, c2) =>
                (.ok (dictInsert item_fields "properties" (.submodel cs true)), c2)
            | (.error e, c2) => (.error e, c2)
      | none => (.ok item_fields, c)
  | _ => (.ok item_fields, c)

/-- The `ValidationError` taxonomy (§7): raw data fails the assembled
schema — not an object, missing required field, wrong type, or a
`const=True` field differing from its fixed value. -/
inductive ValidationError where
  | notObject : ValidationError
  | missing (field : String) : ValidationError
  | badType (field : String) : ValidationError
  | constMismatch (field : String) : ValidationError
deriving DecidableEq, Repr

/-- Validate the declared fields of a properties model against the entries
of a JSON object, in declaration order. Returns the stored values (keyed by
wire alias; an absent optional field stores its default) together with the
list of aliases that were explicitly supplied — pydantic-v1
`__fields_set__`. -/
def validateFields :
    List (String × FieldSpec) → List (String × Json) →
      Except ValidationError (List (String × Json) × List String)
  | [], _ => .ok ([], [])
  | (name, fs) :: rest, kvs =>
      match getKey kvs fs.wireAlias with
      | none =>
          if fs.required then
            .error (.missing name)
          else
            (validateFields rest kvs).map
              (fun r => ((fs.wireAlias, fs.default) :: r.1, r.2))
      | some v =>
          if typeCheck fs.type v then
            (validateFields rest kvs).map
              (fun r => ((fs.wireAlias, v) :: r.1, fs.wireAlias :: r.2))
          else
            .error (.badType name)

/-- Whether `k` is the wire alias of a declared field. -/
def isDeclaredAlias (fields : List (String × FieldSpec)) (k : String) : Bool :=
  fields.any (fun f => f.2.wireAlias == k)

/-- Validate a JSON value against a (possibly composed) properties schema
and return its serialized form as `dict(by_alias=True, exclude_unset=True)`
produces it when the record is nested in an item: the explicitly supplied
declared fields plus — `Config.extra = "allow"` — every undeclared key of
the input; unset defaults are excluded. With `extraAllowed = false` the
undeclared keys would be ignored (the pydantic-v1 default), never an
error. -/
def validateProps (cs : ComposedSchema) (v : Json) : Except ValidationError Json :=
  match v with
  | .obj kvs =>
      (validateFields cs.fields kvs).map
        (fun r =>
          let extras :=
            if cs.extraAllowed then
              kvs.filter (fun p => !(isDeclaredAlias cs.fields p.1))
            else
              []
          .obj ((r.1.filter (fun p => r.2.contains p.1)) ++ extras))
  | _ => .error .notObject

/-- Validate one top-level slot of an assembled item model: the stored
value and whether the field was explicitly supplied. A `const=True` string
field accepts absence (defaulting, unset) or exactly its constant value —
a differing value is a `ValidationError`, never a silent coercion. -/
def validateTopField (name : String) (kvs : List (String × Json)) :
    ItemField → Except ValidationError (Json × Bool)
  | .plain fs =>
      match getKey kvs fs.wireAlias with
      | none =>
          if fs.required then .error (.missing name) else .ok (fs.default, false)
      | some v =>
          if typeCheck fs.type v then .ok (v, true) else .error (.badType name)
  | .constStr c =>
      match getKey kvs name with
      | none => .ok (.str c, false)
      | some (.str s) =>
          if s == c then .ok (.str s, true) else .error (.constMismatch name)
      | some _ => .error (.constMismatch name)
  | .submodel cs required =>
      match getKey kvs name with
      | none =>
          if required then .error (.missing name) else .ok (.null, false)
      | some v => (validateProps cs v).map (fun j => (j, true))

/-- Validate every slot of an assembled item model in declaration order.
Undeclared top-level keys are ignored (the pydantic-v1 default `Config` of
the `Feature` base). Returns stored values and the set of explicitly
supplied field names. -/
def validateTop :
    List (String × ItemField) → List (String × Json) →
      Except ValidationError (List (String × Json) × List String)
  | [], _ => .ok ([], [])
  | (name, f) :: rest, kvs =>
      match validateTopField name kvs f with
      | .error e => .error e
      | .ok vb =>
          (validateTop rest kvs).map
            (fun r => ((name, vb.1) :: r.1, if vb.2 then name :: r.2 else r.2))

/-- A validated record: per-field stored values (wire-alias keyed; in
`item.py` every alias equals the field name) and pydantic-v1
`__fields_set__`. Construction is validate-then-freeze; there is no
mutation phase. -/
structure Record where
  values : List (String × Json)
  fieldsSet : List String

/-- Validate a raw JSON document against an assembled item model. -/
def validateItem (schema : List (String × ItemField)) (doc : Json) :
    Except ValidationError Record :=
  match doc with
  | .obj kvs => (validateTop schema kvs).map (fun r => ⟨r.1, r.2⟩)
  | _ => .error .notObject

/-- `Item.to_dict` / `ItemCollection.to_dict` (item.py lines 51-52, 69-70):
`self.dict(by_alias=True, exclude_unset=True)` — emit, under its wire
alias, exactly each field the caller explicitly supplied; default-but-unset
fields are excluded. -/
def to_dict (r : Record) : Json :=
  .obj (r.values.filter (fun p => r.fieldsSet.contains p.1))

/-- Validate one feature of an `ItemCollection` and store it in the form
`dict(exclude_unset=True)` re-emits it (the serialization recurses into
submodels with their own fields-set). -/
def validateFeature (doc : Json) : Except ValidationError Json :=
  (validateItem itemModelFields doc).map to_dict

/-- The required `features` slot of an `ItemCollection`: a JSON array whose
every element validates as an `Item`, stored re-serialized. -/
def validateFeaturesField (kvs : List (String × Json)) : Except ValidationError Json :=
  match getKey kvs "features" with
  | none => .error (.missing "features")
  | some (.arr xs) => (xs.mapM validateFeature).map (fun l => Json.arr l)
  | some _ => .error (.badType "features")

/-- Validate a raw `ItemCollection` document (item.py lines 58-67):
`type` fixed to "FeatureCollection" (external `FeatureCollection` base,
modelled from the spec §6), the `stac_version` constant, required
`features` each validated as an `Item`, optional `stac_extensions`,
required `links` (each a pagination-shaped or plain link object), optional
`context`. -/
def validateItemCollection (doc : Json) : Except ValidationError Record :=
  match doc with
  | .obj kvs =>
      match validateTopField "type" kvs (.constStr "FeatureCollection") with
      | .error e => .error e
      | .ok tp =>
      match validateTopField "stac_version" kvs (.constStr STAC_VERSION) with
      | .error e => .error e
      | .ok ver =>
      match validateFeaturesField kvs with
      | .error e => .error e
      | .ok feats =>
      match validateTopField "stac_extensions" kvs
          (.plain ⟨"stac_extensions", .optional (.listOf .str), .null, false⟩) with
      | .error e => .error e
      | .ok exts =>
      match validateTopField "links" kvs
          (.plain ⟨"links", .listOf .linkObj, .null, true⟩) with
      | .error e => .error e
      | .ok links =>
      match validateTopField "context" kvs
          (.plain ⟨"context", .optional .contextObj, .null, false⟩) with
      | .error e => .error e
      | .ok ctx =>
          .ok ⟨[("type", tp.1), ("stac_version", ver.1), ("features", feats),
                ("stac_extensions", exts.1), ("links", links.1), ("context", ctx.1)],
               ((if tp.2 then ["type"] else []) ++
                (if ver.2 then ["stac_version"] else []) ++
                ["features"] ++
                (if exts.2 then ["stac_extensions"] else []) ++
                (if links.2 then ["links"] else []) ++
                (if ctx.2 then ["context"] else []))⟩
  | _ => .error .notObject

/-- Whether an `Except` computation succeeded. -/
def isOkE {ε α : Type} : Except ε α → Bool
  | .ok _ => true
  | .error _ => false

/-- Top-level key list of a JSON object. -/
def jsonKeys : Json → List String
  | .obj kvs => kvs.map (fun p => p.1)
  | _ => []

/-- A registry with two extensions "a" and "b" that both define a field
named "x" (the collision scenario of §8). -/
def twoExtRegistry (va vb : FieldSpec) : Registry :=
  fun id => if id = "a" then some [("x", va)] else if id = "b" then some [("x", vb)] else none

/-- A registry knowing only the "view" extension. -/
def viewRegistry : Registry :=
  fun id =>
    if id = "view" then some [("view_off_nadir", ⟨"view_off_nadir", .int, .null, false⟩)]
    else none

/-- A registry with no extensions at all. -/
def noRegistry : Registry := fun _ => none

/-- A registry that (wrongly) claims to know "checksum" and nothing else:
used to show composition never looks "checksum" up. -/
def checksumOnlyRegistry : Registry :=
  fun id => if id = "checksum" then some [("chk", ⟨"chk", .str, .null, false⟩)] else none

/-- A registry resolving every identifier to an extension with no fields. -/
def allEmptyRegistry : Registry := fun _ => some []

/-- Two concrete colliding field definitions for the witness runs. -/
def exampleSpecA : FieldSpec := ⟨"x", .str, .null, false⟩

/-- The second colliding definition, distinct from `exampleSpecA`. -/
def exampleSpecB : FieldSpec := ⟨"x", .str, .null, true⟩

/-- The entries of the minimal valid item document of §8 (only required
fields plus the explicitly supplied version constant). -/
def minimalItemEntries : List (String × Json) :=
  [("id", .str "a"),
   ("stac_version", .str "1.0.0"),
   ("properties", .obj [("datetime", .str "2020-01-01T00:00:00Z")]),
   ("assets", .obj []),
   ("links", .arr []),
   ("bbox", .arr [.num 0, .num 0, .num 1, .num 1])]

/-- The minimal valid item document of §8. -/
def minimalItemDoc : Json := .obj minimalItemEntries

/-- The entries of the same document without `stac_version`. -/
def noVersionEntries : List (String × Json) :=
  [("id", .str "a"),
   ("properties", .obj [("datetime", .str "2020-01-01T00:00:00Z")]),
   ("assets", .obj []),
   ("links", .arr []),
   ("bbox", .arr [.num 0, .num 0, .num 1, .num 1])]

/-- The same document without `stac_version`. -/
def itemDocNoVersion : Json := .obj noVersionEntries

/-- The entries of the same document with a `stac_version` differing from
the constant. -/
def badVersionEntries : List (String × Json) :=
  [("id", .str "a"),
   ("stac_version", .str "0.9.0"),
   ("properties", .obj [("datetime", .str "2020-01-01T00:00:00Z")]),
   ("assets", .obj []),
   ("links", .arr []),
   ("bbox", .arr [.num 0, .num 0, .num 1, .num 1])]

/-- The same document with a `stac_version` differing from the constant. -/
def itemDocBadVersion : Json := .obj badVersionEntries

/-- 129 pairwise distinct single-extension cache keys. -/
def evictionKeys : List (List String) :=
  (List.range 129).map (fun n => ["e" ++ toString n])

/-- Run a sequence of composition requests against the cache, keeping only
the final cache state. -/
def runComposeCalls (registry : Registry) (c : LruCache)
    (ks : List (List String)) : LruCache :=
  ks.foldl (fun acc k => (extension_model_factory registry acc k).2) c

/-- The schema composed for `["view"]` against `viewRegistry`. -/
def viewComposed : ComposedSchema :=
  ⟨dictUpdate itemPropertiesFields
    [("view_off_nadir", ⟨"view_off_nadir", .int, .null, false⟩)], true⟩

/-- The cache after the first `["view"]` composition from an empty cache. -/
def viewCache : LruCache :=
  lruInsert emptyCache ["view"] viewComposed

/-- The key a top-level slot is looked up under in the raw object: a plain
field uses its wire alias, constant and submodel slots use the field name
(in `item.py` these coincide everywhere). -/
def fieldLookupKey (name : String) : ItemField → String
  | .plain fs => fs.wireAlias
  | _ => name

/-- The record produced by validating the minimal item document. -/
def minimalItemRecord : Record :=
  match validateItem itemModelFields minimalItemDoc with
  | .ok r => r
  | .error _ => ⟨[], []⟩

/-- The record produced by validating the version-less item document. -/
def noVersionRecord : Record :=
  match validateItem itemModelFields itemDocNoVersion with
  | .ok r => r
  | .error _ => ⟨[], []⟩

/-- The entries of a minimal item-collection document (only the required
`features` and `links`). -/
def minimalCollectionEntries : List (String × Json) :=
  [("features", .arr []), ("links", .arr [])]

/-- The record produced by validating the minimal item collection. -/
def minimalCollectionRecord : Record :=
  match validateItemCollection (.obj minimalCollectionEntries) with
  | .ok r => r
  | .error _ => ⟨[], []⟩

/-- The declared field names of the `ItemCollection` model. -/
def itemCollectionFieldNames : List String :=
  ["type", "stac_version", "features", "stac_extensions", "links", "context"]

/-- A raw item declaring the `["view"]` extension list. -/
def withExtEntries : List (String × Json) :=
  [("stac_extensions", .arr [.str "view"])]

theorem extFields_checksum_middle (registry : Registry) (l2 : List String) :
    ∀ (l1 : List String) (acc : List (String × FieldSpec)),
      extFields registry (l1 ++ "checksum" :: l2) acc = extFields registry (l1 ++ l2) acc := by
  intro l1
  induction l1 with
  | nil =>
      intro acc
      simp [extFields]
  | cons ext rest ih =>
      intro acc
      by_cases h : ext = "checksum"
      · simp only [List.cons_append, extFields, if_pos h]
        exact ih acc
      · simp only [List.cons_append, extFields, if_neg h]
        cases registry ext with
        | none => rfl
        | some d => exact ih _

theorem extFields_registry_agree (r1 r2 : Registry)
    (h : ∀ id, id ≠ "checksum" → r1 id = r2 id) :
    ∀ (l : List String) (acc : List (String × FieldSpec)),
      extFields r1 l acc = extFields r2 l acc := by
  intro l
  induction l with
  | nil => intro acc; rfl
  | cons ext rest ih =>
      intro acc
      by_cases hc : ext = "checksum"
      · simp only [extFields, if_pos hc]
        exact ih acc
      · simp only [extFields, if_neg hc, h ext hc]
        cases r2 ext with
        | none => rfl
        | some d => exact ih _

theorem extFields_error_of_unknown (registry : Registry) :
    ∀ (l : List String) (acc : List (String × FieldSpec)),
      (∃ id, id ∈ l ∧ id ≠ "checksum" ∧ registry id = none) →
        ∃ e, extFields registry l acc = .error e := by
  intro l
  induction l with
  | nil =>
      intro acc h
      rcases h with ⟨id, hm, _, _⟩
      cases hm
  | cons ext rest ih =>
      intro acc h
      rcases h with ⟨id, hm, hchk, hreg⟩
      by_cases hext : ext = "checksum"
      · simp only [extFields, if_pos hext]
        apply ih
        rcases List.mem_cons.mp hm with h1 | h1
        · exact absurd (h1.trans hext) hchk
        · exact ⟨id, h1, hchk, hreg⟩
      · simp only [extFields, if_neg hext]
        cases hr : registry ext with
        | none => exact ⟨⟨ext⟩, rfl⟩
        | some d =>
            rcases List.mem_cons.mp hm with h1 | h1
            · rw [h1] at hchk hreg
              rw [hreg] at hr
              cases hr
            · exact ih _ ⟨id, h1, hchk, hreg⟩

/-- C5: the reserved identifier "checksum" is a no-op for composition: for
every extension sequence, composing with "checksum" inserted anywhere
yields the same composed schema as composing without it, and composition
never performs a registry lookup for "checksum" — two registries that agree
on every identifier except "checksum" compose identically. -/
theorem claim5_checksum_noop :
    (∀ (registry : Registry) (l1 l2 : List String),
        extension_model_factory_raw registry (l1 ++ "checksum" :: l2) =
          extension_model_factory_raw registry (l1 ++ l2)) ∧
    (∀ (r1 r2 : Registry) (key : List String),
        (∀ id, id ≠ "checksum" → r1 id = r2 id) →
          extension_model_factory_raw r1 key = extension_model_factory_raw r2 key) := by
  constructor
  · intro registry l1 l2
    unfold extension_model_factory_raw
    rw [extFields_checksum_middle]
  · intro r1 r2 key h
    unfold extension_model_factory_raw
    rw [extFields_registry_agree r1 r2 h]

/-- Witness for C5 at concrete inputs: composing `["view", "checksum"]`
equals composing `["view"]`, and a registry entry under "checksum" is never
consulted. -/
theorem claim5_checksum_noop_witness :
    extension_model_factory_raw viewRegistry ["view", "checksum"] =
        extension_model_factory_raw viewRegistry ["view"] ∧
    extension_model_factory_raw checksumOnlyRegistry ["checksum"] =
        extension_model_factory_raw noRegistry ["checksum"] :=
  ⟨claim5_checksum_noop.1 viewRegistry ["view"] [],
   claim5_checksum_noop.2 checksumOnlyRegistry noRegistry ["checksum"]
     (fun _ h => if_neg h)⟩

/-- C2: when two extensions both define field "x", the composed schema
contains the last-applied extension's definition (last-write-wins along the
literal request order); the two orders are distinct cache keys, and with
distinct definitions the two orders compose to different schemas. -/
theorem claim2_last_write_wins_order_sensitive (va vb : FieldSpec) :
    (extension_model_factory_raw (twoExtRegistry va vb) ["a", "b"]).map
        (fun cs => getKey cs.fields "x") = .ok (some vb) ∧
    (extension_model_factory_raw (twoExtRegistry va vb) ["b", "a"]).map
        (fun cs => getKey cs.fields "x") = .ok (some va) ∧
    (["a", "b"] : List String) ≠ ["b", "a"] ∧
    (va ≠ vb →
      extension_model_factory_raw (twoExtRegistry va vb) ["a", "b"] ≠
        extension_model_factory_raw (twoExtRegistry va vb) ["b", "a"]) := by
  refine ⟨rfl, rfl, by simp, ?_⟩
  intro hne heq
  have h2 := congrArg (Except.map (fun cs => getKey cs.fields "x")) heq
  have hab :
      (extension_model_factory_raw (twoExtRegistry va vb) ["a", "b"]).map
        (fun cs => getKey cs.fields "x") = .ok (some vb) := rfl
  have hba :
      (extension_model_factory_raw (twoExtRegistry va vb) ["b", "a"]).map
        (fun cs => getKey cs.fields "x") = .ok (some va) := rfl
  rw [hab, hba] at h2
  exact hne (Option.some.inj (Except.ok.inj h2)).symm

/-- Witness for C2: with the two concrete colliding definitions, the two
request orders produce different composed schemas. -/
theorem claim2_last_write_wins_witness :
    extension_model_factory_raw (twoExtRegistry exampleSpecA exampleSpecB) ["a", "b"] ≠
      extension_model_factory_raw (twoExtRegistry exampleSpecA exampleSpecB) ["b", "a"] :=
  (claim2_last_write_wins_order_sensitive exampleSpecA exampleSpecB).2.2.2
    (fun h => Bool.noConfusion (congrArg FieldSpec.required h))

/-- C6: requesting a sequence containing an unregistered identifier (other
than the reserved "checksum") fails with `UnknownExtensionError`, the cache
is returned unchanged — no partial composition is cached — and every
subsequent request behaves exactly as if the failed request had never
occurred. -/
theorem claim6_unknown_extension_no_partial_cache (registry : Registry)
    (c : LruCache) (key : List String)
    (hmiss : lookupCache c key = none)
    (hbad : ∃ id, id ∈ key ∧ id ≠ "checksum" ∧ registry id = none) :
    (∃ e : UnknownExtensionError,
        extension_model_factory registry c key = (.error e, c)) ∧
    (∀ key2, extension_model_factory registry
        (extension_model_factory registry c key).2 key2 =
      extension_model_factory registry c key2) := by
  obtain ⟨e, he⟩ := extFields_error_of_unknown registry key [] hbad
  have hraw : extension_model_factory_raw registry key = .error e := by
    unfold extension_model_factory_raw
    rw [he]
    rfl
  have hcall : extension_model_factory registry c key = (.error e, c) := by
    simp only [extension_model_factory, hmiss, hraw]
  exact ⟨⟨e, hcall⟩, fun key2 => by rw [hcall]⟩

/-- Witness for C6: the unregistered identifier "not-a-real-extension"
fails composition against the view-only registry and leaves the empty cache
unchanged. -/
theorem claim6_unknown_extension_witness :
    (∃ e : UnknownExtensionError,
        extension_model_factory viewRegistry emptyCache ["not-a-real-extension"] =
          (.error e, emptyCache)) ∧
    (∀ key2, extension_model_factory viewRegistry
        (extension_model_factory viewRegistry emptyCache ["not-a-real-extension"]).2 key2 =
      extension_model_factory viewRegistry emptyCache key2) :=
  claim6_unknown_extension_no_partial_cache viewRegistry emptyCache
    ["not-a-real-extension"] rfl
    ⟨"not-a-real-extension", by decide, by decide, rfl⟩

set_option maxRecDepth 100000

theorem find?_filter_keyNe {α : Type} (k k0 : List String) (hne : k ≠ k0) :
    ∀ entries : List (List String × α),
      (entries.filter (fun p => p.1 != k)).find? (fun p => p.1 == k0) =
        entries.find? (fun p => p.1 == k0) := by
  intro entries
  induction entries with
  | nil => rfl
  | cons a rest ih =>
      by_cases hak : a.1 = k
      · have h1 : (a.1 != k) = false := by simp [hak]
        have h2 : (a.1 == k0) = false := by
          simp only [beq_eq_false_iff_ne, ne_eq, hak]
          exact hne
        simp [List.filter_cons, h1, List.find?_cons, h2, ih]
      · have h1 : (a.1 != k) = true := by simp [hak]
        by_cases hk0 : a.1 = k0
        · have hkk : ¬ k0 = k := fun hh => hne hh.symm
          simp [List.filter_cons, h1, List.find?_cons, hk0, hkk]
        · have h2 : (a.1 == k0) = false := by
            simpa using hk0
          simp [List.filter_cons, h1, List.find?_cons, h2, ih]

theorem lookupCache_touch_self (c : LruCache) (k : List String) (v : ComposedSchema) :
    lookupCache (touchCache c k v) k = some v := by
  simp [lookupCache, touchCache, List.find?_cons]

theorem lookupCache_lruInsert_self (c : LruCache) (k : List String) (v : ComposedSchema) :
    lookupCache (lruInsert c k v) k = some v := by
  have h : lruMaxsize = 127 + 1 := rfl
  simp [lookupCache, lruInsert, h, List.take_succ_cons, List.find?_cons]

theorem lookupCache_after_success (registry : Registry) (c : LruCache)
    (k : List String) (v : ComposedSchema) (c2 : LruCache)
    (h : extension_model_factory registry c k = (.ok v, c2)) :
    lookupCache c2 k = some v := by
  unfold extension_model_factory at h
  cases hl : lookupCache c k with
  | some w =>
      rw [hl] at h
      simp only [Prod.mk.injEq] at h
      obtain ⟨hv, hc⟩ := h
      have hw : w = v := by
        cases hv
        rfl
      rw [← hc, hw]
      exact lookupCache_touch_self c k v
  | none =>
      rw [hl] at h
      cases hr : extension_model_factory_raw registry k with
      | ok w =>
          rw [hr] at h
          simp only [Prod.mk.injEq] at h
          obtain ⟨hv, hc⟩ := h
          have hw : w = v := by
            cases hv
            rfl
          rw [← hc, hw]
          exact lookupCache_lruInsert_self c k v
      | error e =>
          rw [hr] at h
          simp at h

/-- C1: composition is memoized and idempotent for a fixed ordered
extension sequence: after a successful call for `key`, the result is cached
under exactly that key, and an immediately repeated call with the same
sequence returns the same cached `ComposedSchema` as a cache hit. -/
theorem claim1_composition_memoized (registry : Registry) (c : LruCache)
    (key : List String) (v : ComposedSchema) (c2 : LruCache)
    (h : extension_model_factory registry c key = (.ok v, c2)) :
    lookupCache c2 key = some v ∧
    extension_model_factory registry c2 key = (.ok v, touchCache c2 key v) := by
  have hl := lookupCache_after_success registry c key v c2 h
  refine ⟨hl, ?_⟩
  unfold extension_model_factory
  rw [hl]

/-- Witness for C1: the first `["view"]` composition caches its result and
the repeated call returns the identical cached schema. -/
theorem claim1_composition_memoized_witness :
    lookupCache viewCache ["view"] = some viewComposed ∧
    extension_model_factory viewRegistry viewCache ["view"] =
      (.ok viewComposed, touchCache viewCache ["view"] viewComposed) :=
  claim1_composition_memoized viewRegistry emptyCache ["view"] viewComposed viewCache rfl

/-- C3 (amended): an entry survives every subsequent composition call while
the cache holds fewer than `maxsize` (128) entries; the original claim of
unconditional no-eviction fails, see the counterexample. -/
theorem claim3_no_eviction_within_capacity (registry : Registry) (c : LruCache)
    (k k0 : List String) (v0 : ComposedSchema)
    (hlen : c.entries.length < lruMaxsize)
    (h0 : lookupCache c k0 = some v0) :
    lookupCache (extension_model_factory registry c k).2 k0 = some v0 := by
  by_cases hkk : k = k0
  · subst hkk
    unfold extension_model_factory
    rw [h0]
    exact lookupCache_touch_self c k v0
  · have hkne : (k == k0) = false := by simpa using hkk
    unfold extension_model_factory
    cases hl : lookupCache c k with
    | some w =>
        show lookupCache (touchCache c k w) k0 = some v0
        unfold lookupCache touchCache
        rw [List.find?_cons_of_neg _ (by simp [hkne]), find?_filter_keyNe k k0 hkk]
        exact h0
    | none =>
        cases hr : extension_model_factory_raw registry k with
        | error e => exact h0
        | ok w =>
            have htake : ((k, w) :: c.entries).take lruMaxsize = (k, w) :: c.entries := by
              apply List.take_of_length_le
              simp only [List.length_cons]
              omega
            show lookupCache (lruInsert c k w) k0 = some v0
            unfold lookupCache lruInsert
            rw [htake, List.find?_cons_of_neg _ (by simp [hkne])]
            exact h0

/-- Witness for the amended C3: with a single cached entry (well within the
128-entry capacity), a request for a different key does not evict it. -/
theorem claim3_no_eviction_witness :
    lookupCache (extension_model_factory allEmptyRegistry viewCache ["e1"]).2 ["view"] =
      some viewComposed :=
  claim3_no_eviction_within_capacity allEmptyRegistry viewCache ["e1"] ["view"]
    viewComposed (by decide) rfl

/-- C3 counterexample: the claim that an entry, once inserted, is never
removed regardless of how many distinct keys are later requested is false.
The key `["e0"]` is cached by its first request (head of the run), the 129
requested keys are pairwise distinct, and after the full run the entry for
`["e0"]` is gone — the bare `@lru_cache` decorator has `maxsize=128` and
evicts the least-recently-used entry. -/
theorem claim3_counterexample_lru_eviction :
    (lookupCache (extension_model_factory allEmptyRegistry emptyCache ["e0"]).2
        ["e0"]).isSome = true ∧
    evictionKeys.head? = some ["e0"] ∧
    evictionKeys.Nodup ∧
    lookupCache (runComposeCalls allEmptyRegistry emptyCache evictionKeys) ["e0"] = none :=
  ⟨rfl, rfl, by decide, rfl⟩

theorem getKey_isSome_iff {α : Type} (kvs : List (String × α)) (k : String) :
    (getKey kvs k).isSome = true ↔ k ∈ kvs.map Prod.fst := by
  induction kvs with
  | nil => simp [getKey]
  | cons a rest ih =>
      by_cases h : a.1 = k
      · rw [getKey, List.find?_cons_of_pos _ (by simp [h])]
        simp [h]
      · rw [getKey, List.find?_cons_of_neg _ (by simp [h])]
        rw [getKey] at ih
        rw [ih]
        simp [List.mem_map]
        intro he
        exact absurd he.symm h

theorem getKey_eq_none_of_ne {α : Type} (l : List (String × α)) (k : String)
    (h : ∀ p ∈ l, p.1 ≠ k) : getKey l k = none := by
  induction l with
  | nil => rfl
  | cons a rest ih =>
      rw [getKey, List.find?_cons_of_neg _ (by simp [h a (List.mem_cons_self a rest)])]
      exact ih (fun p hp => h p (List.mem_cons_of_mem a hp))

theorem getKey_append_of_ne {α : Type} (kvs extras : List (String × α)) (k : String)
    (h : ∀ p ∈ extras, p.1 ≠ k) : getKey (kvs ++ extras) k = getKey kvs k := by
  induction kvs with
  | nil =>
      simp only [List.nil_append]
      exact getKey_eq_none_of_ne extras k h
  | cons a rest ih =>
      by_cases ha : a.1 = k
      · rw [List.cons_append, getKey, List.find?_cons_of_pos _ (by simp [ha]),
          getKey, List.find?_cons_of_pos _ (by simp [ha])]
      · rw [List.cons_append, getKey, List.find?_cons_of_neg _ (by simp [ha]),
          getKey, List.find?_cons_of_neg _ (by simp [ha])]
        exact ih

theorem isOkE_map {ε α β : Type} (f : α → β) (e : Except ε α) :
    isOkE (e.map f) = isOkE e := by
  cases e <;> rfl

theorem validateTopField_set (name : String) (kvs : List (String × Json))
    (f : ItemField) (vb : Json × Bool)
    (h : validateTopField name kvs f = .ok vb) :
    vb.2 = (getKey kvs (fieldLookupKey name f)).isSome := by
  cases f with
  | plain fs =>
      simp only [validateTopField] at h
      simp only [fieldLookupKey]
      split at h
      · split at h
        · cases h
        · cases h
          simp_all
      · split at h
        · cases h
          simp_all
        · cases h
  | constStr c =>
      simp only [validateTopField] at h
      simp only [fieldLookupKey]
      split at h
      · cases h
        simp_all
      · split at h
        · cases h
          simp_all
        · cases h
      · cases h
  | submodel cs req =>
      simp only [validateTopField] at h
      simp only [fieldLookupKey]
      split at h
      · split at h
        · cases h
        · cases h
          simp_all
      · cases hp : validateProps cs _ with
        | ok j =>
            rw [hp] at h
            simp only [Except.map] at h
            cases h
            simp_all
        | error e =>
            rw [hp] at h
            simp only [Except.map] at h
            cases h

theorem validateTop_ok_of_mem (kvs : List (String × Json)) :
    ∀ (fields : List (String × ItemField)) (r : List (String × Json) × List String),
      validateTop fields kvs = .ok r →
        ∀ nf ∈ fields, ∃ vb, validateTopField nf.1 kvs nf.2 = .ok vb := by
  intro fields
  induction fields with
  | nil =>
      intro r _ nf hnf
      cases hnf
  | cons g rest ih =>
      intro r h nf hnf
      rw [validateTop] at h
      cases hf : validateTopField g.1 kvs g.2 with
      | error e =>
          rw [hf] at h
          cases h
      | ok vb =>
          rw [hf] at h
          cases hr : validateTop rest kvs with
          | error e =>
              rw [hr] at h
              cases h
          | ok r2 =>
              cases List.mem_cons.mp hnf with
              | inl heq =>
                  rw [heq]
                  exact ⟨vb, hf⟩
              | inr hmem => exact ih r2 hr nf hmem

theorem validateTop_ok_shape (kvs : List (String × Json)) :
    ∀ (fields : List (String × ItemField)) (vals : List (String × Json))
      (setNames : List String),
      validateTop fields kvs = .ok (vals, setNames) →
        vals.map Prod.fst = fields.map Prod.fst ∧
        ∀ n, n ∈ setNames ↔ ∃ nf, nf ∈ fields ∧ nf.1 = n ∧
          (getKey kvs (fieldLookupKey nf.1 nf.2)).isSome = true := by
  intro fields
  induction fields with
  | nil =>
      intro vals setNames h
      cases h
      simp
  | cons g rest ih =>
      intro vals setNames h
      rw [validateTop] at h
      cases hf : validateTopField g.1 kvs g.2 with
      | error e =>
          rw [hf] at h
          cases h
      | ok vb =>
          rw [hf] at h
          cases hr : validateTop rest kvs with
          | error e =>
              rw [hr] at h
              cases h
          | ok r2 =>
              rw [hr] at h
              simp only [Except.map] at h
              cases h
              obtain ⟨ihmap, ihset⟩ := ih r2.1 r2.2 (by rw [hr])
              have hset := validateTopField_set g.1 kvs g.2 vb hf
              constructor
              · simp [ihmap]
              · intro n
                by_cases hb : vb.2 = true
                · rw [if_pos hb]
                  rw [hb] at hset
                  constructor
                  · intro hn
                    cases List.mem_cons.mp hn with
                    | inl heq => exact ⟨g, List.mem_cons_self g rest, heq.symm, hset.symm⟩
                    | inr hmem =>
                        obtain ⟨nf, hnf, hn1, hn2⟩ := (ihset n).mp hmem
                        exact ⟨nf, List.mem_cons_of_mem g hnf, hn1, hn2⟩
                  · rintro ⟨nf, hnf, hn1, hn2⟩
                    cases List.mem_cons.mp hnf with
                    | inl heq =>
                        rw [← hn1, heq]
                        exact List.mem_cons_self g.1 r2.2
                    | inr hmem =>
                        exact List.mem_cons_of_mem _ ((ihset n).mpr ⟨nf, hmem, hn1, hn2⟩)
                · rw [if_neg hb]
                  have hb2 : vb.2 = false := by
                    cases hvb : vb.2
                    · rfl
                    · exact absurd hvb hb
                  rw [hb2] at hset
                  rw [ihset n]
                  constructor
                  · rintro ⟨nf, hnf, hn1, hn2⟩
                    exact ⟨nf, List.mem_cons_of_mem g hnf, hn1, hn2⟩
                  · rintro ⟨nf, hnf, hn1, hn2⟩
                    cases List.mem_cons.mp hnf with
                    | inl heq =>
                        rw [heq] at hn2
                        rw [← hset] at hn2
                        cases hn2
                    | inr hmem => exact ⟨nf, hmem, hn1, hn2⟩

theorem mem_to_dict_keys (r : Record) (k : String) :
    k ∈ jsonKeys (to_dict r) ↔ (∃ p ∈ r.values, p.1 = k) ∧ k ∈ r.fieldsSet := by
  unfold to_dict jsonKeys
  simp only [List.mem_map, List.mem_filter]
  constructor
  · rintro ⟨p, ⟨hp, hc⟩, he⟩
    refine ⟨⟨p, hp, he⟩, ?_⟩
    rw [← he]
    exact List.mem_of_elem_eq_true hc
  · rintro ⟨⟨p, hp, he⟩, hs⟩
    refine ⟨p, ⟨hp, ?_⟩, he⟩
    rw [he]
    exact List.elem_eq_true_of_mem hs

theorem validateTopField_const_mismatch (name c : String)
    (kvs : List (String × Json)) (v : Json)
    (hv : getKey kvs name = some v) (hne : v ≠ .str c) :
    ∀ vb, validateTopField name kvs (.constStr c) ≠ .ok vb := by
  intro vb h
  cases v with
  | str s =>
      simp only [validateTopField, hv] at h
      by_cases hs : (s == c) = true
      · exact hne (by rw [beq_iff_eq.mp hs])
      · simp [hs] at h
  | null => simp [validateTopField, hv] at h
  | bool b => simp [validateTopField, hv] at h
  | num n => simp [validateTopField, hv] at h
  | arr xs => simp [validateTopField, hv] at h
  | obj o => simp [validateTopField, hv] at h

/-- C7: a raw document whose `stac_version` differs from the fixed constant
fails `Item` and `ItemCollection` validation with a `ValidationError`, no
matter how well-formed the rest of the document is — the mismatch is never
coerced. -/
theorem claim7_version_mismatch_rejected (kvs : List (String × Json)) (v : Json)
    (hv : getKey kvs "stac_version" = some v)
    (hne : v ≠ .str STAC_VERSION) :
    isOkE (validateItem itemModelFields (.obj kvs)) = false ∧
    isOkE (validateItemCollection (.obj kvs)) = false := by
  constructor
  · cases ht : validateTop itemModelFields kvs with
    | error e => simp [validateItem, ht, isOkE, Except.map]
    | ok r =>
        exfalso
        obtain ⟨vb, hvb⟩ := validateTop_ok_of_mem kvs itemModelFields r ht
          ("stac_version", .constStr STAC_VERSION) (by simp [itemModelFields])
        exact validateTopField_const_mismatch "stac_version" STAC_VERSION kvs v
          hv hne vb hvb
  · cases ht : validateTopField "type" kvs (.constStr "FeatureCollection") with
    | error e => simp [validateItemCollection, ht, isOkE]
    | ok tp =>
        cases hv2 : validateTopField "stac_version" kvs (.constStr STAC_VERSION) with
        | error e => simp [validateItemCollection, ht, hv2, isOkE]
        | ok vb =>
            exact absurd hv2
              (validateTopField_const_mismatch "stac_version" STAC_VERSION kvs v
                hv hne vb)

/-- Witness for C7: the otherwise well-formed document carrying
`stac_version = "0.9.0"` is rejected by both validators. -/
theorem claim7_version_mismatch_witness :
    isOkE (validateItem itemModelFields (.obj badVersionEntries)) = false ∧
    isOkE (validateItemCollection (.obj badVersionEntries)) = false :=
  claim7_version_mismatch_rejected badVersionEntries (.str "0.9.0") rfl
    (by
      intro h
      injection h with h2
      exact absurd h2 (by decide))

theorem itemModelFields_lookupKey :
    ∀ nf ∈ itemModelFields, fieldLookupKey nf.1 nf.2 = nf.1 := by
  intro nf h
  simp only [itemModelFields, List.mem_cons, List.mem_singleton, List.not_mem_nil,
    or_false] at h
  rcases h with h | h | h | h | h | h | h | h | h | h <;> subst h <;> rfl

theorem collection_fieldsSet_version_mem (b1 b2 b3 b4 b5 : Bool) :
    ("stac_version" ∈ ((if b1 = true then ["type"] else []) ++
        (if b2 = true then ["stac_version"] else []) ++
        ["features"] ++
        (if b3 = true then ["stac_extensions"] else []) ++
        (if b4 = true then ["links"] else []) ++
        (if b5 = true then ["context"] else []))) ↔ b2 = true := by
  cases b1 <;> cases b2 <;> cases b3 <;> cases b4 <;> cases b5 <;> simp

/-- C4 (amended): `stac_version` is emitted by `to_dict` exactly when the
raw document explicitly supplied it; a validated record whose caller
omitted the field excludes it under `exclude_unset=True` even though it
validated to the constant. Holds for `Item` and `ItemCollection` alike. -/
theorem claim4_version_emitted_iff_supplied (kvs : List (String × Json)) :
    (∀ r, validateItem itemModelFields (.obj kvs) = .ok r →
        ("stac_version" ∈ jsonKeys (to_dict r) ↔
          (getKey kvs "stac_version").isSome = true)) ∧
    (∀ r, validateItemCollection (.obj kvs) = .ok r →
        ("stac_version" ∈ jsonKeys (to_dict r) ↔
          (getKey kvs "stac_version").isSome = true)) := by
  constructor
  · intro r hok
    cases ht : validateTop itemModelFields kvs with
    | error e =>
        simp only [validateItem, ht, Except.map] at hok
        cases hok
    | ok pr =>
        simp only [validateItem, ht, Except.map] at hok
        cases hok
        obtain ⟨hmap, hiff⟩ := validateTop_ok_shape kvs itemModelFields pr.1 pr.2 (by rw [ht])
        rw [mem_to_dict_keys]
        constructor
        · rintro ⟨-, hs⟩
          obtain ⟨nf, hnf, h1, h2⟩ := (hiff "stac_version").mp hs
          rw [itemModelFields_lookupKey nf hnf, h1] at h2
          exact h2
        · intro hp
          constructor
          · have hm : "stac_version" ∈ pr.1.map Prod.fst := by
              rw [hmap]
              simp [itemModelFields]
            obtain ⟨p, hpmem, hpe⟩ := List.mem_map.mp hm
            exact ⟨p, hpmem, hpe⟩
          · exact (hiff "stac_version").mpr
              ⟨("stac_version", .constStr STAC_VERSION), by simp [itemModelFields], rfl, hp⟩
  · intro r hok
    cases ht : validateTopField "type" kvs (.constStr "FeatureCollection") with
    | error e =>
        simp only [validateItemCollection, ht] at hok
        cases hok
    | ok tp =>
    cases hver : validateTopField "stac_version" kvs (.constStr STAC_VERSION) with
    | error e =>
        simp only [validateItemCollection, ht, hver] at hok
        cases hok
    | ok ver =>
    cases hfeat : validateFeaturesField kvs with
    | error e =>
        simp only [validateItemCollection, ht, hver, hfeat] at hok
        cases hok
    | ok feats =>
    cases hexts : validateTopField "stac_extensions" kvs
        (.plain ⟨"stac_extensions", .optional (.listOf .str), .null, false⟩) with
    | error e =>
        simp only [validateItemCollection, ht, hver, hfeat, hexts] at hok
        cases hok
    | ok exts =>
    cases hlinks : validateTopField "links" kvs
        (.plain ⟨"links", .listOf .linkObj, .null, true⟩) with
    | error e =>
        simp only [validateItemCollection, ht, hver, hfeat, hexts, hlinks] at hok
        cases hok
    | ok links =>
    cases hctx : validateTopField "context" kvs
        (.plain ⟨"context", .optional .contextObj, .null, false⟩) with
    | error e =>
        simp only [validateItemCollection, ht, hver, hfeat, hexts, hlinks, hctx] at hok
        cases hok
    | ok ctx =>
        simp only [validateItemCollection, ht, hver, hfeat, hexts, hlinks, hctx] at hok
        cases hok
        have hset : ver.2 = (getKey kvs "stac_version").isSome :=
          validateTopField_set "stac_version" kvs (.constStr STAC_VERSION) ver hver
        rw [mem_to_dict_keys]
        constructor
        · rintro ⟨-, hs⟩
          rw [collection_fieldsSet_version_mem tp.2 ver.2 exts.2 links.2 ctx.2] at hs
          rw [← hset]
          exact hs
        · intro hp
          refine ⟨⟨("stac_version", ver.1), by simp, rfl⟩, ?_⟩
          rw [collection_fieldsSet_version_mem tp.2 ver.2 exts.2 links.2 ctx.2, hset]
          exact hp

/-- Witness for the amended C4 at the minimal item document (which supplies
`stac_version`) and the minimal collection document (which omits it). -/
theorem claim4_version_emitted_witness :
    ("stac_version" ∈ jsonKeys (to_dict minimalItemRecord) ↔
      (getKey minimalItemEntries "stac_version").isSome = true) ∧
    ("stac_version" ∈ jsonKeys (to_dict minimalCollectionRecord) ↔
      (getKey minimalCollectionEntries "stac_version").isSome = true) :=
  ⟨(claim4_version_emitted_iff_supplied minimalItemEntries).1 minimalItemRecord rfl,
   (claim4_version_emitted_iff_supplied minimalCollectionEntries).2
     minimalCollectionRecord rfl⟩

/-- C4 counterexample: the claim that serialization always emits
`stac_version` even when the caller did not supply it is false — the
version-less document validates (the field defaults to the constant), yet
`to_dict` omits `stac_version` while emitting the supplied keys. -/
theorem claim4_counterexample_unset_version_omitted :
    validateItem itemModelFields itemDocNoVersion = .ok noVersionRecord ∧
    (jsonKeys (to_dict noVersionRecord)).contains "stac_version" = false ∧
    (jsonKeys (to_dict noVersionRecord)).contains "id" = true :=
  ⟨rfl, rfl, rfl⟩

theorem validateFeaturesField_isSome (kvs : List (String × Json)) (j : Json)
    (h : validateFeaturesField kvs = .ok j) :
    (getKey kvs "features").isSome = true := by
  unfold validateFeaturesField at h
  cases hk : getKey kvs "features" with
  | none =>
      rw [hk] at h
      cases h
  | some v => simp [hk]

theorem collection_fieldsSet_mem (tp ver exts links ctx : Bool) (k : String) :
    (k ∈ ((if tp = true then ["type"] else []) ++
        (if ver = true then ["stac_version"] else []) ++
        ["features"] ++
        (if exts = true then ["stac_extensions"] else []) ++
        (if links = true then ["links"] else []) ++
        (if ctx = true then ["context"] else []))) ↔
      ((k = "type" ∧ tp = true) ∨ (k = "stac_version" ∧ ver = true) ∨
        k = "features" ∨ (k = "stac_extensions" ∧ exts = true) ∨
        (k = "links" ∧ links = true) ∨ (k = "context" ∧ ctx = true)) := by
  cases tp <;> cases ver <;> cases exts <;> cases links <;> cases ctx <;> simp

/-- C8: for a raw document whose keys are all declared model fields (in
particular one supplying only required fields), serialization of the
validated record emits exactly the keys present in the raw document — under
their wire aliases, which in `item.py` coincide with the field names —
omitting every declared field the caller did not supply. Holds for `Item`
and `ItemCollection`. -/
theorem claim8_roundtrip_key_set (kvs : List (String × Json)) :
    (∀ r, validateItem itemModelFields (.obj kvs) = .ok r →
        (∀ p ∈ kvs, p.1 ∈ itemModelFields.map Prod.fst) →
        ∀ k, k ∈ jsonKeys (to_dict r) ↔ k ∈ kvs.map Prod.fst) ∧
    (∀ r, validateItemCollection (.obj kvs) = .ok r →
        (∀ p ∈ kvs, p.1 ∈ itemCollectionFieldNames) →
        ∀ k, k ∈ jsonKeys (to_dict r) ↔ k ∈ kvs.map Prod.fst) := by
  constructor
  · intro r hok hdecl k
    cases ht : validateTop itemModelFields kvs with
    | error e =>
        simp only [validateItem, ht, Except.map] at hok
        cases hok
    | ok pr =>
        simp only [validateItem, ht, Except.map] at hok
        cases hok
        obtain ⟨hmap, hiff⟩ := validateTop_ok_shape kvs itemModelFields pr.1 pr.2 (by rw [ht])
        rw [mem_to_dict_keys]
        constructor
        · rintro ⟨-, hs⟩
          obtain ⟨nf, hnf, h1, h2⟩ := (hiff k).mp hs
          rw [itemModelFields_lookupKey nf hnf, h1] at h2
          exact (getKey_isSome_iff kvs k).mp h2
        · intro hk
          have hpres : (getKey kvs k).isSome = true := (getKey_isSome_iff kvs k).mpr hk
          obtain ⟨p, hp, hpe⟩ := List.mem_map.mp hk
          have hname : k ∈ itemModelFields.map Prod.fst := by
            rw [← hpe]
            exact hdecl p hp
          obtain ⟨nf, hnf, hnfe⟩ := List.mem_map.mp hname
          constructor
          · have hm2 : k ∈ pr.1.map Prod.fst := by
              rw [hmap]
              exact hname
            obtain ⟨q, hq, hqe⟩ := List.mem_map.mp hm2
            exact ⟨q, hq, hqe⟩
          · refine (hiff k).mpr ⟨nf, hnf, hnfe, ?_⟩
            rw [itemModelFields_lookupKey nf hnf, hnfe]
            exact hpres
  · intro r hok hdecl k
    cases ht : validateTopField "type" kvs (.constStr "FeatureCollection") with
    | error e =>
        simp only [validateItemCollection, ht] at hok
        cases hok
    | ok tp =>
    cases hver : validateTopField "stac_version" kvs (.constStr STAC_VERSION) with
    | error e =>
        simp only [validateItemCollection, ht, hver] at hok
        cases hok
    | ok ver =>
    cases hfeat : validateFeaturesField kvs with
    | error e =>
        simp only [validateItemCollection, ht, hver, hfeat] at hok
        cases hok
    | ok feats =>
    cases hexts : validateTopField "stac_extensions" kvs
        (.plain ⟨"stac_extensions", .optional (.listOf .str), .null, false⟩) with
    | error e =>
        simp only [validateItemCollection, ht, hver, hfeat, hexts] at hok
        cases hok
    | ok exts =>
    cases hlinks : validateTopField "links" kvs
        (.plain ⟨"links", .listOf .linkObj, .null, true⟩) with
    | error e =>
        simp only [validateItemCollection, ht, hver, hfeat, hexts, hlinks] at hok
        cases hok
    | ok links =>
    cases hctx : validateTopField "context" kvs
        (.plain ⟨"context", .optional .contextObj, .null, false⟩) with
    | error e =>
        simp only [validateItemCollection, ht, hver, hfeat, hexts, hlinks, hctx] at hok
        cases hok
    | ok ctx =>
        simp only [validateItemCollection, ht, hver, hfeat, hexts, hlinks, hctx] at hok
        cases hok
        have hsetTp : tp.2 = (getKey kvs "type").isSome :=
          validateTopField_set "type" kvs (.constStr "FeatureCollection") tp ht
        have hsetVer : ver.2 = (getKey kvs "stac_version").isSome :=
          validateTopField_set "stac_version" kvs (.constStr STAC_VERSION) ver hver
        have hsetExts : exts.2 = (getKey kvs "stac_extensions").isSome :=
          validateTopField_set "stac_extensions" kvs
            (.plain ⟨"stac_extensions", .optional (.listOf .str), .null, false⟩) exts hexts
        have hsetLinks : links.2 = (getKey kvs "links").isSome :=
          validateTopField_set "links" kvs
            (.plain ⟨"links", .listOf .linkObj, .null, true⟩) links hlinks
        have hsetCtx : ctx.2 = (getKey kvs "context").isSome :=
          validateTopField_set "context" kvs
            (.plain ⟨"context", .optional .contextObj, .null, false⟩) ctx hctx
        have hfeats : (getKey kvs "features").isSome = true :=
          validateFeaturesField_isSome kvs feats hfeat
        rw [mem_to_dict_keys]
        constructor
        · rintro ⟨-, hs⟩
          rw [collection_fieldsSet_mem tp.2 ver.2 exts.2 links.2 ctx.2 k] at hs
          apply (getKey_isSome_iff kvs k).mp
          rcases hs with ⟨hk, hf⟩ | ⟨hk, hf⟩ | hk | ⟨hk, hf⟩ | ⟨hk, hf⟩ | ⟨hk, hf⟩
          · rw [hk, ← hsetTp]
            exact hf
          · rw [hk, ← hsetVer]
            exact hf
          · rw [hk]
            exact hfeats
          · rw [hk, ← hsetExts]
            exact hf
          · rw [hk, ← hsetLinks]
            exact hf
          · rw [hk, ← hsetCtx]
            exact hf
        · intro hk
          have hpres : (getKey kvs k).isSome = true := (getKey_isSome_iff kvs k).mpr hk
          obtain ⟨p, hp, hpe⟩ := List.mem_map.mp hk
          have hname : k ∈ itemCollectionFieldNames := by
            rw [← hpe]
            exact hdecl p hp
          simp only [itemCollectionFieldNames, List.mem_cons, List.not_mem_nil,
            or_false] at hname
          constructor
          · rcases hname with h | h | h | h | h | h
            · exact ⟨("type", tp.1), by simp, h.symm⟩
            · exact ⟨("stac_version", ver.1), by simp, h.symm⟩
            · exact ⟨("features", feats), by simp, h.symm⟩
            · exact ⟨("stac_extensions", exts.1), by simp, h.symm⟩
            · exact ⟨("links", links.1), by simp, h.symm⟩
            · exact ⟨("context", ctx.1), by simp, h.symm⟩
          · rw [collection_fieldsSet_mem tp.2 ver.2 exts.2 links.2 ctx.2 k]
            rcases hname with h | h | h | h | h | h
            · refine Or.inl ⟨h, ?_⟩
              rw [hsetTp, ← h]
              exact hpres
            · refine Or.inr (Or.inl ⟨h, ?_⟩)
              rw [hsetVer, ← h]
              exact hpres
            · exact Or.inr (Or.inr (Or.inl h))
            · refine Or.inr (Or.inr (Or.inr (Or.inl ⟨h, ?_⟩)))
              rw [hsetExts, ← h]
              exact hpres
            · refine Or.inr (Or.inr (Or.inr (Or.inr (Or.inl ⟨h, ?_⟩))))
              rw [hsetLinks, ← h]
              exact hpres
            · refine Or.inr (Or.inr (Or.inr (Or.inr (Or.inr ⟨h, ?_⟩))))
              rw [hsetCtx, ← h]
              exact hpres

/-- Witness for C8: the minimal item document round-trips to exactly its
own key set — in particular no `collection` key appears — and likewise the
minimal collection document emits no `stac_version` key. -/
theorem claim8_roundtrip_witness :
    ("collection" ∈ jsonKeys (to_dict minimalItemRecord) ↔
      "collection" ∈ minimalItemEntries.map Prod.fst) ∧
    ("stac_version" ∈ jsonKeys (to_dict minimalCollectionRecord) ↔
      "stac_version" ∈ minimalCollectionEntries.map Prod.fst) :=
  ⟨(claim8_roundtrip_key_set minimalItemEntries).1 minimalItemRecord rfl
      (by decide) "collection",
   (claim8_roundtrip_key_set minimalCollectionEntries).2 minimalCollectionRecord rfl
      (by decide) "stac_version"⟩

theorem validateFields_append_extras (extras : List (String × Json)) :
    ∀ (fields : List (String × FieldSpec)) (kvs : List (String × Json)),
      (∀ p ∈ extras, isDeclaredAlias fields p.1 = false) →
      validateFields fields (kvs ++ extras) = validateFields fields kvs := by
  intro fields
  induction fields with
  | nil =>
      intro kvs _
      rfl
  | cons g rest ih =>
      intro kvs h
      have hal : ∀ p ∈ extras, p.1 ≠ g.2.wireAlias := by
        intro p hp heq
        have h2 := h p hp
        rw [isDeclaredAlias, List.any_cons] at h2
        rw [Bool.or_eq_false_iff] at h2
        have h3 := h2.1
        rw [heq] at h3
        simp at h3
      have hrest : ∀ p ∈ extras, isDeclaredAlias rest p.1 = false := by
        intro p hp
        have h2 := h p hp
        rw [isDeclaredAlias, List.any_cons] at h2
        rw [Bool.or_eq_false_iff] at h2
        exact h2.2
      simp only [validateFields, getKey_append_of_ne kvs extras g.2.wireAlias hal,
        ih kvs hrest]

/-- C10: validation of a properties object never fails on account of
undeclared keys: every composed schema keeps `Config.extra = "allow"`
inherited from `ItemProperties`, and appending arbitrary undeclared keys to
a document leaves the validation verdict unchanged — a document with
unknown fields validates exactly when its declared fields are present and
well-typed. -/
theorem claim10_extra_keys_allowed (registry : Registry) (key : List String)
    (cs : ComposedSchema)
    (hok : extension_model_factory_raw registry key = .ok cs) :
    cs.extraAllowed = true ∧
    (∀ (kvs extras : List (String × Json)),
        (∀ p ∈ extras, isDeclaredAlias cs.fields p.1 = false) →
        isOkE (validateProps cs (.obj (kvs ++ extras))) =
          isOkE (validateProps cs (.obj kvs))) := by
  constructor
  · unfold extension_model_factory_raw at hok
    cases hf : extFields registry key [] with
    | error e =>
        rw [hf] at hok
        cases hok
    | ok fs =>
        rw [hf] at hok
        simp only [Except.map] at hok
        cases hok
        rfl
  · intro kvs extras hex
    show isOkE ((validateFields cs.fields (kvs ++ extras)).map _) =
      isOkE ((validateFields cs.fields kvs).map _)
    rw [isOkE_map, isOkE_map,
      validateFields_append_extras extras cs.fields kvs hex]

/-- Witness for C10: the schema composed for `["view"]` allows extras, and
adding an undeclared key to a valid properties object does not change the
verdict. -/
theorem claim10_extra_keys_witness :
    viewComposed.extraAllowed = true ∧
    isOkE (validateProps viewComposed
        (.obj ([("datetime", .str "2020-01-01T00:00:00Z")] ++ [("custom_key", .num 3)]))) =
      isOkE (validateProps viewComposed
        (.obj [("datetime", .str "2020-01-01T00:00:00Z")])) :=
  ⟨(claim10_extra_keys_allowed viewRegistry ["view"] viewComposed rfl).1,
   (claim10_extra_keys_allowed viewRegistry ["view"] viewComposed rfl).2
     [("datetime", .str "2020-01-01T00:00:00Z")] [("custom_key", .num 3)] (by decide)⟩

/-- C9: `item_factory` replaces the `properties` slot with the memoized
composed schema for exactly the raw item's extension list, marked required,
precisely when the raw item declares a non-empty `stac_extensions` list; an
absent or empty list leaves the base `Item` decomposition — with the base
properties schema — untouched, and the cache is touched only through
`extension_model_factory` (the assembled item schema itself is rebuilt per
call, never cached). -/
theorem claim9_item_factory_properties (registry : Registry) (c : LruCache)
    (kvs : List (String × Json)) :
    (∀ xs exts cs c2,
        getKey kvs "stac_extensions" = some (.arr xs) →
        strList xs = some exts →
        exts ≠ [] →
        extension_model_factory registry c exts = (.ok cs, c2) →
        item_factory registry c kvs =
          (.ok (dictInsert itemModelFields "properties" (.submodel cs true)), c2)) ∧
    (getKey kvs "stac_extensions" = none →
        item_factory registry c kvs = (.ok itemModelFields, c)) ∧
    (getKey kvs "stac_extensions" = some (.arr []) →
        item_factory registry c kvs = (.ok itemModelFields, c)) := by
  refine ⟨?_, ?_, ?_⟩
  · intro xs exts cs c2 hget hstr hne hcomp
    have hemp : exts.isEmpty = false := by
      cases exts with
      | nil => exact absurd rfl hne
      | cons a l => rfl
    simp [item_factory, hget, hstr, hemp, hcomp]
  · intro hget
    simp [item_factory, hget]
  · intro hget
    simp [item_factory, hget, strList]

/-- Witness for C9: a raw item declaring `["view"]` gets the composed view
schema substituted (required) with the cache updated through the memoized
factory; a raw item with no `stac_extensions` key keeps the base fields and
the cache untouched. -/
theorem claim9_item_factory_witness :
    item_factory viewRegistry emptyCache withExtEntries =
      (.ok (dictInsert itemModelFields "properties" (.submodel viewComposed true)),
        viewCache) ∧
    item_factory viewRegistry emptyCache minimalCollectionEntries =
      (.ok itemModelFields, emptyCache) :=
  ⟨(claim9_item_factory_properties viewRegistry emptyCache withExtEntries).1
      [.str "view"] ["view"] viewComposed viewCache rfl rfl (by decide) rfl,
   (claim9_item_factory_properties viewRegistry emptyCache minimalCollectionEntries).2.1
      rfl⟩
